import Mathlib

/-
Verification of the Toolbox text-file parsing core of sfm-utils
(src/toolbox.ts): the mode detector, the line classifier and assembler
(updateObj), filename inference (getBookAndChapter) and book
initialization (initializeBookObj), shallowly embedded in Lean.

Lines of a Toolbox file are modelled as the list of strings the source
obtains after splitting the raw file on line endings (the `toolboxData`
array); file reading and CRLF normalization are I/O-side and are not
claim-relevant.  JavaScript regular-expression searches are embedded as
explicit scanning functions over the character list of a line; for each
regex of the source the scan tries every start position left to right
and uses maximal munch where backtracking provably cannot change the
outcome (each quantified class is disjoint from the character that must
follow it).  JavaScript numbers holding small integers are modelled as
Int (the verse counter can be decremented below zero), list indices as
Nat.  A JavaScript TypeError (reading a property of undefined) is
modelled as `Except.error`.
-/

/-! ## Data model (types of src/toolbox.ts and src/books.ts) -/

/-- Mode of parsing a Toolbox file: each TX line is a verse, or VS lines
carry the verse numbers. -/
inductive modeType where
  | TX_AS_VERSE
  | VS_AS_VERSE
deriving Repr, DecidableEq

/-- Canonical book metadata supplied by the book registry. -/
structure bookInfoType where
  name : String
  num : Nat
  code : String
  chapters : Nat
deriving Repr, DecidableEq

/-- A content unit: a verse, a section heading or a padding placeholder. -/
structure unitType where
  type : String
  number : Int
  text : String
deriving Repr, DecidableEq, BEq

/-- A chapter entry of a book's content array.  As initialized by
`initializeBookObj` it is a padding object with no `content` field, which
is modelled by `content = none`. -/
structure chapterType where
  type : String
  number : Int
  content : Option (List unitType)
deriving Repr, DecidableEq

/-- Header of a book object. -/
structure headerType where
  projectName : String
  bookInfo : bookInfoType
deriving Repr, DecidableEq

/-- The book object (books.objType). -/
structure objType where
  header : headerType
  content : List chapterType
deriving Repr, DecidableEq

/-- Information extracted from a filename. -/
structure fileInfoType where
  bookName : String
  chapterNumber : Nat
deriving Repr, DecidableEq

/-- Result of a parse run: the (mutated) book object, the running verse
counter, and the warnings written to the console, in order. -/
structure ParseOut where
  book : objType
  verseNum : Int
  warnings : List String
deriving Repr, DecidableEq

/-! ## Character classes and regex scans -/

/-- JavaScript regex class backslash-s, restricted to the whitespace
characters that can occur in the ASCII Toolbox input (plus NBSP). -/
def isJsSpace (c : Char) : Bool :=
  c = ' ' || c = '\t' || c = '\n' || c = '\x0d' || c = '\x0b' || c = '\x0c' || c = ' '

/-- JavaScript regex class A-Za-z. -/
def isAsciiLetter (c : Char) : Bool :=
  ('A' ≤ c && c ≤ 'Z') || ('a' ≤ c && c ≤ 'z')

/-- JavaScript regex class 0-9A-Za-z. -/
def isAsciiAlnum (c : Char) : Bool :=
  isAsciiLetter c || c.isDigit

/-- After the whitespace of a backslash-s-plus run: skip further
whitespace, then require a digit (tail of matching the regex fragment of
`modePattern` after its first whitespace character). -/
def skipWsDigit : List Char → Bool
  | [] => false
  | c :: rest => if isJsSpace c then skipWsDigit rest else c.isDigit

/-- Match the regex fragment backslash-s-plus backslash-d-plus at the head
of the character list: one or more whitespace characters, then a digit. -/
def wsPlusDigit : List Char → Bool
  | [] => false
  | c :: rest => isJsSpace c && skipWsDigit rest

/-- Match the source's `modePattern` regex (backslash-vs, whitespace-plus,
digit-plus) at the head of the character list. -/
def matchVsNumAt (l : List Char) : Bool :=
  match l with
  | a :: b :: c :: rest => if a = '\\' ∧ b = 'v' ∧ c = 's' then wsPlusDigit rest else false
  | _ => false

/-- Scan of `modePattern` over all start positions of a line. -/
def containsVsNumAux : List Char → Bool
  | [] => false
  | c :: rest => matchVsNumAt (c :: rest) || containsVsNumAux rest

/-- `line.match(modePattern)` as a Boolean test: the line contains a
backslash-vs marker followed by whitespace and one or more digits. -/
def containsVsNum (line : String) : Bool := containsVsNumAux line.data

/-- Match the source's line `pattern` regex, a backslash then one or more
ASCII letters (group 1) then one whitespace character then the rest of the
line (group 2), at the head of the character list. -/
def tryMarkerAt (l : List Char) : Option (String × String) :=
  match l with
  | c :: rest =>
    if c = '\\' then
      let letters := rest.takeWhile isAsciiLetter
      if letters.isEmpty then none
      else
        match rest.drop letters.length with
        | d :: tail =>
          if isJsSpace d then some ("\\" ++ letters.asString, tail.asString) else none
        | [] => none
    else none
  | [] => none

/-- Scan of the line `pattern` over all start positions. -/
def lineMatchAux : List Char → Option (String × String)
  | [] => none
  | c :: rest =>
    match tryMarkerAt (c :: rest) with
    | some r => some r
    | none => lineMatchAux rest

/-- `line.match(pattern)` of the source: the first position of the line at
which a backslash-prefixed alphabetic marker followed by a whitespace
character matches; returns (marker, content). -/
def lineMatch (line : String) : Option (String × String) := lineMatchAux line.data

/-- The literal alternative of the source's `vsPattern` group. -/
def sectionTitleChars : List Char := "(section title)".data

/-- Match the source's `vsPattern` regex (backslash-vs, whitespace-plus,
optional asterisk, then digits or the literal "(section title)", optional
letter suffix, anything) at the head of the character list; returns the
captured group 1. -/
def tryVsAt (l : List Char) : Option String :=
  match l with
  | a :: b :: c :: rest =>
    if a = '\\' ∧ b = 'v' ∧ c = 's' then
      let ws := rest.takeWhile isJsSpace
      if ws.isEmpty then none
      else
        let r1 := rest.drop ws.length
        let r2 := match r1 with
          | '*' :: t => t
          | _ => r1
        let ds := r2.takeWhile Char.isDigit
        if !ds.isEmpty then some ds.asString
        else if sectionTitleChars.isPrefixOf r2 then some "(section title)"
        else none
    else none
  | _ => none

/-- Scan of `vsPattern` over all start positions. -/
def vsMatchAux : List Char → Option String
  | [] => none
  | c :: rest =>
    match tryVsAt (c :: rest) with
    | some r => some r
    | none => vsMatchAux rest

/-- `line.match(vsPattern)` of the source, returning group 1 (the verse
number digits or the section-title literal). -/
def vsMatch (line : String) : Option String := vsMatchAux line.data

/-- Substring test (needed for the unanchored tail of the filename regex:
after the digits the remainder must contain ".txt"). -/
def containsSub (pat : List Char) : List Char → Bool
  | [] => pat.isEmpty
  | c :: rest => pat.isPrefixOf (c :: rest) || containsSub pat rest

/-- The optional `(Ch|ch)` group of the filename regex: consumed exactly
when a digit follows it (otherwise the mandatory digit group could not
match, and the fallback without the group fails on the letter C or c). -/
def chOpt (r : List Char) : List Char :=
  match r with
  | 'C' :: 'h' :: t => if (t.headD ' ').isDigit then t else r
  | 'c' :: 'h' :: t => if (t.headD ' ').isDigit then t else r
  | _ => r

/-- Match the source's filename regex
(alnum-plus, underscore, optional Ch or ch, digit-plus, optional
underscore or whitespace, anything, ".txt") at the head of the character
list; returns (book token, chapter digits). -/
def tryFileAt (l : List Char) : Option (String × String) :=
  let tok := l.takeWhile isAsciiAlnum
  if tok.isEmpty then none
  else
    match l.drop tok.length with
    | '_' :: r1 =>
      let r2 := chOpt r1
      let ds := r2.takeWhile Char.isDigit
      if ds.isEmpty then none
      else
        let r3 := r2.drop ds.length
        if containsSub ".txt".data r3 then some (tok.asString, ds.asString) else none
    | _ => none

/-- Scan of the filename regex over all start positions. -/
def fileMatchAux : List Char → Option (String × String)
  | [] => none
  | c :: rest =>
    match tryFileAt (c :: rest) with
    | some r => some r
    | none => fileMatchAux rest

/-- `filename.match(...)` for the filename pattern of getBookAndChapter. -/
def fileMatch (filename : String) : Option (String × String) := fileMatchAux filename.data

/-- Decimal value of a digit string (JavaScript parseInt on the digits
captured by a regex digit group). -/
def digitsToNat (l : List Char) : Nat :=
  l.foldl (fun acc c => acc * 10 + (c.toNat - '0'.toNat)) 0

/-! ## The book registry and the functions of src/toolbox.ts -/

/-- Modelled from the spec: the Book Registry (`books.getBookByName` of the
repository's books module, which is not present under src/) resolves a
book name to canonical metadata (name, numeric id, code, chapter count)
and returns the placeholder book for names it cannot resolve.  Modelled
with a representative table of canonical books. -/
def getBookByName (name : String) : bookInfoType :=
  if name = "Genesis" then ⟨"Genesis", 1, "GEN", 50⟩
  else if name = "Ruth" then ⟨"Ruth", 8, "RUT", 4⟩
  else if name = "Jonah" then ⟨"Jonah", 32, "JON", 4⟩
  else ⟨"Placeholder", 0, "000", 0⟩

/-- getBookAndChapter of src/toolbox.ts, on the base name of the file:
match the filename pattern; on a match resolve the book token through the
registry and, if it resolved, return it with the parsed chapter number;
otherwise keep the placeholder.  On no match warn.  Returns the
fileInfoType object and the warnings printed. -/
def getBookAndChapter (filename : String) : fileInfoType × List String :=
  match fileMatch filename with
  | some (tok, digits) =>
    let bookName := (getBookByName tok).name
    if bookName ≠ "Placeholder" then
      (⟨bookName, digitsToNat digits.data⟩, [])
    else
      (⟨"Placeholder", 0⟩, [])
  | none => (⟨"Placeholder", 0⟩, ["Unable to determine info from: " ++ filename])

/-- initializeBookObj of src/toolbox.ts: a book object with the project
name, the registry metadata, and one padding chapter object per index
0 .. chapters (index 0 is the extra padding for 1-based chapters).  The
padding objects carry no content array (content = none). -/
def initializeBookObj (bookName : String) (projectName : String) : objType :=
  let bookType := getBookByName bookName
  { header := ⟨projectName, bookType⟩,
    content := (List.range (bookType.chapters + 1)).map (fun i => ⟨"padding", (i : Int), none⟩) }

/-- Replace the chapter at an index of the book's content array
(the JavaScript in-place mutation of bookObj.content at currentChapter). -/
def setChapter (b : objType) (i : Nat) (ch : chapterType) : objType :=
  { b with content := b.content.set i ch }

/-- Apply a function to the last element of a list (the JavaScript
mutation of content at index contentLength minus 1). -/
def modifyLast (f : unitType → unitType) : List unitType → List unitType
  | [] => []
  | [u] => [f u]
  | u :: v :: rest => u :: modifyLast f (v :: rest)

/-- Reclassify a unit as a section heading with number 1. -/
def sectionize (u : unitType) : unitType := { u with type := "section", number := 1 }

/-- Append text to a unit (the merge of a continuation line). -/
def appendText (t : String) (u : unitType) : unitType := { u with text := u.text ++ t }

/-- Stand-in unit for reading the last element of a list known to be
nonempty (the JavaScript access content at contentLength minus 1 is only
reached under the guard contentLength greater than zero). -/
def dummyUnit : unitType := ⟨"", 0, ""⟩

/-- The marker dispatch (switch statement) of updateObj, applied after a
line matched the line pattern and after the chapter's content array was
successfully dereferenced.  Returns the new book object, verse counter and
the warnings of this line.  The source's if / else-if chains on the mode
are kept as conditionals over the two-valued mode type. -/
def dispatchMarker (mode : modeType) (currentChapter : Nat) (bookObj : objType)
    (verseNum : Int) (line : String) (marker : String) (content : String)
    (ch : chapterType) (units : List unitType) : ParseOut :=
  if marker = "\\c" then
    ⟨bookObj, verseNum, []⟩
  else if marker = "\\tx" then
    if mode = .VS_AS_VERSE then
      if 0 < units.length ∧ (units.getLastD dummyUnit).type = "verse" ∧
          verseNum = (units.getLastD dummyUnit).number then
        ⟨setChapter bookObj currentChapter
          { ch with content := some (modifyLast (appendText content) units) }, verseNum, []⟩
      else
        ⟨setChapter bookObj currentChapter
          { ch with content := some (units ++ [⟨"verse", verseNum, content⟩]) }, verseNum, []⟩
    else
      ⟨setChapter bookObj currentChapter
        { ch with content := some (units ++ [⟨"verse", verseNum, content⟩]) }, verseNum + 1, []⟩
  else if marker = "\\vs" then
    if 0 < units.length then
      if mode = .TX_AS_VERSE then
        ⟨setChapter bookObj currentChapter
          { ch with content := some (modifyLast sectionize units) }, verseNum - 1, []⟩
      else
        (vsMatch line).elim ⟨bookObj, verseNum, []⟩ (fun payload =>
          if payload = "(section title)" then
            ⟨setChapter bookObj currentChapter
              { ch with content := some (modifyLast sectionize units) }, verseNum, []⟩
          else
            ⟨bookObj, (digitsToNat payload.data : Int) + 1, []⟩)
    else
      ⟨bookObj, verseNum, ["Warning, section without text"]⟩
  else
    ⟨bookObj, verseNum, ["Skipping unexpected marker:" ++ marker]⟩

/-- One iteration of the forEach loop of updateObj: match the line
pattern; a malformed line is skipped with a warning; a matched line first
dereferences bookObj.content at currentChapter and that chapter's content
array (a TypeError when either is undefined), then dispatches on the
marker. -/
def processLine (mode : modeType) (currentChapter : Nat) (bookObj : objType)
    (verseNum : Int) (line : String) : Except String ParseOut :=
  match lineMatch line with
  | none =>
    .ok ⟨bookObj, verseNum, ["Unable to parse line: \"" ++ line ++ "\" - skipping..."]⟩
  | some (marker, content) =>
    match bookObj.content.get? currentChapter with
    | none => .error "TypeError: cannot read properties of undefined"
    | some ch =>
      match ch.content with
      | none => .error "TypeError: cannot read length of undefined"
      | some units =>
        .ok (dispatchMarker mode currentChapter bookObj verseNum line marker content ch units)

/-- The forEach loop of updateObj over the lines, threading the book and
the verse counter and accumulating warnings in order; a TypeError aborts
the run. -/
def processLines (mode : modeType) (currentChapter : Nat) (bookObj : objType)
    (verseNum : Int) : List String → Except String ParseOut
  | [] => .ok ⟨bookObj, verseNum, []⟩
  | line :: rest =>
    match processLine mode currentChapter bookObj verseNum line with
    | .error e => .error e
    | .ok out =>
      match processLines mode currentChapter out.book out.verseNum rest with
      | .error e => .error e
      | .ok out2 => .ok ⟨out2.book, out2.verseNum, out.warnings ++ out2.warnings⟩

/-- The mode-detection loop of updateObj (the every() loop): the first
line matching modePattern switches the mode to VS_AS_VERSE and breaks. -/
def detectMode : List String → modeType
  | [] => .TX_AS_VERSE
  | line :: rest => if containsVsNum line then .VS_AS_VERSE else detectMode rest

/-- updateObj of src/toolbox.ts on the split line list of the file:
determine the mode, then process every line with the verse counter
starting at 1. -/
def updateObj (bookObj : objType) (toolboxData : List String) (currentChapter : Nat) :
    Except String ParseOut :=
  processLines (detectMode toolboxData) currentChapter bookObj 1 toolboxData

/-! ## Test fixtures -/

/-- A book object whose chapter 1 already carries a content array, as the
assembler's target chapter must to avoid the TypeError; used by concrete
runs. -/
def testBook (units : List unitType) : objType :=
  { header := ⟨"Test", getBookByName "Ruth"⟩,
    content := [⟨"padding", 0, none⟩, ⟨"chapter", 1, some units⟩] }

/-! ## Basic list lemmas -/

theorem list_get?_lt {α : Type} (l : List α) (i : Nat) (a : α) (h : l.get? i = some a) :
    i < l.length := by
  induction l generalizing i with
  | nil => simp [List.get?] at h
  | cons x xs ih =>
    cases i with
    | zero => simp
    | succ n => simpa using ih n (by simpa using h)

theorem list_get?_set_self {α : Type} (l : List α) (i : Nat) (a : α) (h : i < l.length) :
    (l.set i a).get? i = some a := by
  induction l generalizing i with
  | nil => simp at h
  | cons x xs ih =>
    cases i with
    | zero => rfl
    | succ n => simpa using ih n (by simpa using h)

theorem list_get?_set_ne {α : Type} (l : List α) (i j : Nat) (a : α) (h : j ≠ i) :
    (l.set i a).get? j = l.get? j := by
  induction l generalizing i j with
  | nil => simp
  | cons x xs ih =>
    cases i with
    | zero =>
      cases j with
      | zero => exact absurd rfl h
      | succ m => rfl
    | succ n =>
      cases j with
      | zero => rfl
      | succ m => simpa using ih n m (fun he => h (by omega))

theorem list_get?_append_left {α : Type} (l l' : List α) (i : Nat) (h : i < l.length) :
    (l ++ l').get? i = l.get? i := by
  induction l generalizing i with
  | nil => simp at h
  | cons a tail ih =>
    cases i with
    | zero => rfl
    | succ n => simpa using ih n (by simpa using h)

theorem list_ne_nil_of_getLast? {α : Type} {l : List α} {u : α} (h : l.getLast? = some u) :
    l ≠ [] := by
  intro he
  subst he
  simp at h

theorem list_get?_of_getLast? {α : Type} (l : List α) (u : α) (h : l.getLast? = some u) :
    l.get? (l.length - 1) = some u := by
  induction l with
  | nil => simp at h
  | cons a tail ih =>
    cases tail with
    | nil =>
      simp at h
      subst h
      rfl
    | cons b rest =>
      rw [List.getLast?_cons_cons] at h
      have hrec := ih h
      simp only [List.length_cons, Nat.add_sub_cancel] at hrec ⊢
      simpa using hrec

theorem list_getLast?_of_get? {α : Type} (l : List α) (u : α) (h : l.get? (l.length - 1) = some u) :
    l ≠ [] → l.getLast? = some u := by
  induction l with
  | nil => intro hne; exact absurd rfl hne
  | cons a tail ih =>
    intro _
    cases tail with
    | nil =>
      simp at h
      subst h
      rfl
    | cons b rest =>
      rw [List.getLast?_cons_cons]
      apply ih _ (by simp)
      simp only [List.length_cons, Nat.add_sub_cancel] at h ⊢
      simpa using h

/-! ## Lemmas about modifyLast -/

theorem modifyLast_single (f : unitType → unitType) (a : unitType) :
    modifyLast f [a] = [f a] := rfl

theorem modifyLast_cons_cons (f : unitType → unitType) (a b : unitType) (rest : List unitType) :
    modifyLast f (a :: b :: rest) = a :: modifyLast f (b :: rest) := rfl

theorem length_modifyLast (f : unitType → unitType) (l : List unitType) :
    (modifyLast f l).length = l.length := by
  induction l with
  | nil => rfl
  | cons a tail ih =>
    cases tail with
    | nil => rfl
    | cons b rest =>
      rw [modifyLast_cons_cons]
      simpa using ih

theorem modifyLast_concat (f : unitType → unitType) (l : List unitType) (a : unitType) :
    modifyLast f (l ++ [a]) = l ++ [f a] := by
  induction l with
  | nil => rfl
  | cons x tail ih =>
    cases tail with
    | nil => rfl
    | cons y rest =>
      rw [List.cons_append, List.cons_append, modifyLast_cons_cons]
      rw [← List.cons_append]
      rw [ih]
      rfl

theorem get?_modifyLast (f : unitType → unitType) (l : List unitType) (i : Nat)
    (h : i + 1 < l.length) : (modifyLast f l).get? i = l.get? i := by
  induction l generalizing i with
  | nil => rfl
  | cons a tail ih =>
    cases tail with
    | nil =>
      simp only [List.length_cons, List.length_nil] at h
      exact absurd h (by omega)
    | cons b rest =>
      rw [modifyLast_cons_cons]
      cases i with
      | zero => rfl
      | succ n => simpa using ih n (by simpa using h)

theorem get?_modifyLast_last (f : unitType → unitType) (l : List unitType) (u : unitType)
    (h : l.getLast? = some u) : (modifyLast f l).get? (l.length - 1) = some (f u) := by
  induction l with
  | nil => simp at h
  | cons a tail ih =>
    cases tail with
    | nil =>
      simp at h
      subst h
      rfl
    | cons b rest =>
      rw [List.getLast?_cons_cons] at h
      rw [modifyLast_cons_cons]
      have hrec := ih h
      simp only [List.length_cons, Nat.add_sub_cancel] at hrec ⊢
      simpa using hrec

theorem getLast?_modifyLast (f : unitType → unitType) (l : List unitType) (u : unitType)
    (h : l.getLast? = some u) : (modifyLast f l).getLast? = some (f u) := by
  apply list_getLast?_of_get?
  · rw [length_modifyLast]
    exact get?_modifyLast_last f l u h
  · intro he
    have := length_modifyLast f l
    rw [he] at this
    have hne := list_ne_nil_of_getLast? h
    cases l with
    | nil => exact hne rfl
    | cons x xs => simp at this

/-! ## The mutation discipline of a parse run -/

/-- Mutation discipline the frame claim asserts: relative to an initial
unit list, the final list only appends units and appends text to the
initial last unit (its type and number preserved). -/
def appendOnly (init fin : List unitType) : Prop :=
  init.length ≤ fin.length ∧
  (∀ i, i + 1 < init.length → fin.get? i = init.get? i) ∧
  (∀ u, init.getLast? = some u →
    ∃ u', fin.get? (init.length - 1) = some u' ∧
      u'.type = u.type ∧ u'.number = u.number ∧ ∃ s, u'.text = u.text ++ s)

/-- Actual mutation discipline of the assembler: like appendOnly, but the
last initial unit may also have its type and number overwritten with
exactly "section" and 1 (the section reclassification) — never with
anything else; its text still only grows at the end. -/
def appendReclassOnly (init fin : List unitType) : Prop :=
  init.length ≤ fin.length ∧
  (∀ i, i + 1 < init.length → fin.get? i = init.get? i) ∧
  (∀ u, init.getLast? = some u →
    ∃ u', fin.get? (init.length - 1) = some u' ∧ (∃ s, u'.text = u.text ++ s) ∧
      (u'.type = u.type ∧ u'.number = u.number ∨ u'.type = "section" ∧ u'.number = 1))

theorem appendReclassOnly_refl (l : List unitType) : appendReclassOnly l l :=
  ⟨le_refl _, fun _ _ => rfl,
    fun u h => ⟨u, list_get?_of_getLast? l u h, ⟨"", (String.append_empty u.text).symm⟩,
      Or.inl ⟨rfl, rfl⟩⟩⟩

theorem appendReclassOnly_trans {l1 l2 l3 : List unitType}
    (h12 : appendReclassOnly l1 l2) (h23 : appendReclassOnly l2 l3) :
    appendReclassOnly l1 l3 := by
  obtain ⟨hl12, hf12, hlast12⟩ := h12
  obtain ⟨hl23, hf23, hlast23⟩ := h23
  refine ⟨le_trans hl12 hl23, ?_, ?_⟩
  · intro i hi
    rw [hf23 i (by omega), hf12 i hi]
  · intro u hu
    obtain ⟨u', hget, ⟨s, hs⟩, hd1⟩ := hlast12 u hu
    have hne : l1 ≠ [] := list_ne_nil_of_getLast? hu
    have h1pos : 1 ≤ l1.length := by
      cases l1 with
      | nil => exact absurd rfl hne
      | cons x xs => simp
    by_cases hgrow : l1.length - 1 + 1 < l2.length
    · refine ⟨u', ?_, ⟨s, hs⟩, hd1⟩
      rw [hf23 _ hgrow]
      exact hget
    · have heq : l2.length = l1.length := by omega
      have hlast2 : l2.getLast? = some u' := by
        apply list_getLast?_of_get?
        · rw [heq]
          exact hget
        · intro he
          rw [he] at heq
          simp at heq
          omega
      obtain ⟨u'', hget'', ⟨s', hs'⟩, hd2⟩ := hlast23 u' hlast2
      refine ⟨u'', ?_, ⟨s ++ s', ?_⟩, ?_⟩
      · rw [heq] at hget''
        exact hget''
      · rw [hs', hs, String.append_assoc]
      · rcases hd2 with ⟨ht2, hn2⟩ | hd2
        · rcases hd1 with ⟨ht1, hn1⟩ | hd1
          · exact Or.inl ⟨ht2.trans ht1, hn2.trans hn1⟩
          · exact Or.inr ⟨ht2.trans hd1.1, hn2.trans hd1.2⟩
        · exact Or.inr hd2

theorem appendReclassOnly_concat (l : List unitType) (u : unitType) :
    appendReclassOnly l (l ++ [u]) := by
  refine ⟨by simp, ?_, ?_⟩
  · intro i hi
    exact list_get?_append_left l [u] i (by omega)
  · intro v hv
    have hne : l ≠ [] := list_ne_nil_of_getLast? hv
    have h1pos : 1 ≤ l.length := by
      cases l with
      | nil => exact absurd rfl hne
      | cons x xs => simp
    refine ⟨v, ?_, ⟨"", (String.append_empty v.text).symm⟩, Or.inl ⟨rfl, rfl⟩⟩
    rw [list_get?_append_left l [u] _ (by omega)]
    exact list_get?_of_getLast? l v hv

theorem appendReclassOnly_modifyLast (f : unitType → unitType)
    (hf : ∀ u, (∃ s, (f u).text = u.text ++ s) ∧
      ((f u).type = u.type ∧ (f u).number = u.number ∨
        (f u).type = "section" ∧ (f u).number = 1))
    (l : List unitType) :
    appendReclassOnly l (modifyLast f l) := by
  refine ⟨by rw [length_modifyLast], ?_, ?_⟩
  · intro i hi
    exact get?_modifyLast f l i hi
  · intro u hu
    exact ⟨f u, get?_modifyLast_last f l u hu, (hf u).1, (hf u).2⟩

/-- The three chapter-content operations a processed line can perform. -/
def chapStep (units units' : List unitType) : Prop :=
  (∃ u, units' = units ++ [u]) ∨
  (∃ t, units' = modifyLast (appendText t) units) ∨
  (units' = modifyLast sectionize units)

theorem appendReclassOnly_of_chapStep {units units' : List unitType}
    (h : chapStep units units') : appendReclassOnly units units' := by
  rcases h with ⟨u, rfl⟩ | ⟨t, rfl⟩ | rfl
  · exact appendReclassOnly_concat units u
  · exact appendReclassOnly_modifyLast (appendText t)
      (fun u => ⟨⟨t, rfl⟩, Or.inl ⟨rfl, rfl⟩⟩) units
  · exact appendReclassOnly_modifyLast sectionize
      (fun u => ⟨⟨"", (String.append_empty u.text).symm⟩, Or.inr ⟨rfl, rfl⟩⟩) units

/-! ## Adjacent duplicate verses -/

/-- No two adjacent units of the list are both verses with the same
number. -/
def noAdjDupVerse : List unitType → Bool
  | u :: v :: rest =>
    (!(u.type == "verse" && v.type == "verse" && u.number == v.number)) &&
      noAdjDupVerse (v :: rest)
  | _ => true

theorem noAdjDupVerse_single (u : unitType) : noAdjDupVerse [u] = true := rfl

theorem noAdjDupVerse_cons_cons (u v : unitType) (rest : List unitType) :
    noAdjDupVerse (u :: v :: rest) =
      ((!(u.type == "verse" && v.type == "verse" && u.number == v.number)) &&
        noAdjDupVerse (v :: rest)) := rfl

theorem noAdjDupVerse_append_single (units : List unitType) (u : unitType)
    (hinv : noAdjDupVerse units = true)
    (hguard : ∀ lastU, units.getLast? = some lastU → lastU.type = "verse" →
      u.type = "verse" → lastU.number ≠ u.number) :
    noAdjDupVerse (units ++ [u]) = true := by
  induction units with
  | nil => rfl
  | cons a tail ih =>
    cases tail with
    | nil =>
      have hg := hguard a rfl
      rw [List.cons_append, List.nil_append, noAdjDupVerse_cons_cons, noAdjDupVerse_single,
        Bool.and_true]
      by_cases h1 : a.type = "verse"
      · by_cases h2 : u.type = "verse"
        · have hne := hg h1 h2
          simp [h1, h2, hne]
        · simp [h2]
      · simp [h1]
    | cons b rest =>
      rw [noAdjDupVerse_cons_cons, Bool.and_eq_true] at hinv
      have hguard' : ∀ lastU, (b :: rest).getLast? = some lastU → lastU.type = "verse" →
          u.type = "verse" → lastU.number ≠ u.number := by
        intro lastU hl
        exact hguard lastU (by rw [List.getLast?_cons_cons]; exact hl)
      have hrec := ih hinv.2 hguard'
      rw [List.cons_append] at hrec
      rw [List.cons_append, List.cons_append, noAdjDupVerse_cons_cons]
      simp [hinv.1, hrec]

theorem noAdjDupVerse_modifyLast_keep (f : unitType → unitType)
    (hf : ∀ u, (f u).type = u.type ∧ (f u).number = u.number)
    (units : List unitType) (hinv : noAdjDupVerse units = true) :
    noAdjDupVerse (modifyLast f units) = true := by
  induction units with
  | nil => rfl
  | cons a tail ih =>
    cases tail with
    | nil => rfl
    | cons b rest =>
      rw [noAdjDupVerse_cons_cons, Bool.and_eq_true] at hinv
      rw [modifyLast_cons_cons]
      cases rest with
      | nil =>
        rw [modifyLast_single, noAdjDupVerse_cons_cons, noAdjDupVerse_single, Bool.and_true]
        rw [(hf b).1, (hf b).2]
        simpa using hinv.1
      | cons c rest' =>
        have hrec := ih hinv.2
        rw [modifyLast_cons_cons] at hrec ⊢
        rw [noAdjDupVerse_cons_cons]
        simp [hinv.1, hrec]

theorem noAdjDupVerse_modifyLast_sectionize (units : List unitType)
    (hinv : noAdjDupVerse units = true) :
    noAdjDupVerse (modifyLast sectionize units) = true := by
  induction units with
  | nil => rfl
  | cons a tail ih =>
    cases tail with
    | nil => rfl
    | cons b rest =>
      rw [noAdjDupVerse_cons_cons, Bool.and_eq_true] at hinv
      rw [modifyLast_cons_cons]
      cases rest with
      | nil =>
        rw [modifyLast_single, noAdjDupVerse_cons_cons, noAdjDupVerse_single, Bool.and_true]
        simp [sectionize]
      | cons c rest' =>
        have hrec := ih hinv.2
        rw [modifyLast_cons_cons] at hrec ⊢
        rw [noAdjDupVerse_cons_cons]
        simp [hinv.1, hrec]

/-! ## Shape of the effect of one line -/

theorem dispatchMarker_shape (mode : modeType) (c : Nat) (b : objType) (v : Int)
    (line marker content : String) (ch : chapterType) (units : List unitType) :
    (dispatchMarker mode c b v line marker content ch units).book = b ∨
    ∃ units', (dispatchMarker mode c b v line marker content ch units).book =
        setChapter b c { ch with content := some units' } ∧ chapStep units units' := by
  unfold dispatchMarker
  by_cases h1 : marker = "\\c"
  · rw [if_pos h1]
    left
    rfl
  · rw [if_neg h1]
    by_cases h2 : marker = "\\tx"
    · rw [if_pos h2]
      by_cases hm : mode = .VS_AS_VERSE
      · rw [if_pos hm]
        by_cases hmerge : 0 < units.length ∧ (units.getLastD dummyUnit).type = "verse" ∧
            v = (units.getLastD dummyUnit).number
        · rw [if_pos hmerge]
          right
          exact ⟨_, rfl, Or.inr (Or.inl ⟨_, rfl⟩)⟩
        · rw [if_neg hmerge]
          right
          exact ⟨_, rfl, Or.inl ⟨_, rfl⟩⟩
      · rw [if_neg hm]
        right
        exact ⟨_, rfl, Or.inl ⟨_, rfl⟩⟩
    · rw [if_neg h2]
      by_cases h3 : marker = "\\vs"
      · rw [if_pos h3]
        by_cases h4 : 0 < units.length
        · rw [if_pos h4]
          by_cases hm : mode = .TX_AS_VERSE
          · rw [if_pos hm]
            right
            exact ⟨_, rfl, Or.inr (Or.inr rfl)⟩
          · rw [if_neg hm]
            cases hvs : vsMatch line with
            | none =>
              rw [Option.elim]
              left
              rfl
            | some payload =>
              rw [Option.elim]
              by_cases h5 : payload = "(section title)"
              · rw [if_pos h5]
                right
                exact ⟨_, rfl, Or.inr (Or.inr rfl)⟩
              · rw [if_neg h5]
                left
                rfl
        · rw [if_neg h4]
          left
          rfl
      · rw [if_neg h3]
        left
        rfl

theorem processLine_shape (mode : modeType) (c : Nat) (b : objType) (v : Int) (line : String)
    (out : ParseOut) (h : processLine mode c b v line = .ok out) :
    out.book = b ∨
    ∃ ch units units', b.content.get? c = some ch ∧ ch.content = some units ∧
      out.book = setChapter b c { ch with content := some units' } ∧ chapStep units units' := by
  cases hlm : lineMatch line with
  | none =>
    simp only [processLine, hlm] at h
    injection h with h2
    left
    rw [← h2]
  | some mc =>
    obtain ⟨marker, content⟩ := mc
    simp only [processLine, hlm] at h
    cases hch : b.content.get? c with
    | none =>
      rw [hch] at h
      exact Except.noConfusion h
    | some ch =>
      rw [hch] at h
      simp only [] at h
      cases hc : ch.content with
      | none =>
        rw [hc] at h
        exact Except.noConfusion h
      | some units =>
        rw [hc] at h
        simp only [] at h
        injection h with h2
        rcases dispatchMarker_shape mode c b v line marker content ch units with
          hb | ⟨units', hb, hstep⟩
        · left
          rw [← h2]
          exact hb
        · right
          refine ⟨ch, units, units', rfl, hc, ?_, hstep⟩
          rw [← h2]
          exact hb

theorem processLine_frame (mode : modeType) (c : Nat) (b : objType) (v : Int) (line : String)
    (out : ParseOut) (h : processLine mode c b v line = .ok out) :
    out.book.header = b.header ∧
    (∀ j, j ≠ c → out.book.content.get? j = b.content.get? j) ∧
    (∀ ch units, b.content.get? c = some ch → ch.content = some units →
      ∃ ch', out.book.content.get? c = some ch' ∧ ch'.type = ch.type ∧
        ch'.number = ch.number ∧ ∃ units', ch'.content = some units' ∧
          appendReclassOnly units units') := by
  rcases processLine_shape mode c b v line out h with hb | ⟨ch, units, units', hch, hc, hb, hstep⟩
  · rw [hb]
    exact ⟨rfl, fun _ _ => rfl, fun ch units hch hc =>
      ⟨ch, hch, rfl, rfl, units, hc, appendReclassOnly_refl units⟩⟩
  · rw [hb]
    refine ⟨rfl, ?_, ?_⟩
    · intro j hj
      exact list_get?_set_ne _ _ _ _ hj
    · intro ch0 units0 hch0 hc0
      rw [hch] at hch0
      injection hch0 with he
      subst he
      rw [hc] at hc0
      injection hc0 with he2
      subst he2
      refine ⟨{ ch with content := some units' }, ?_, rfl, rfl, units', rfl,
        appendReclassOnly_of_chapStep hstep⟩
      exact list_get?_set_self _ _ _ (list_get?_lt _ _ _ hch)

theorem processLines_frame (mode : modeType) (c : Nat) (lines : List String) :
    ∀ b v out, processLines mode c b v lines = .ok out →
    out.book.header = b.header ∧
    (∀ j, j ≠ c → out.book.content.get? j = b.content.get? j) ∧
    (∀ ch units, b.content.get? c = some ch → ch.content = some units →
      ∃ ch', out.book.content.get? c = some ch' ∧ ch'.type = ch.type ∧
        ch'.number = ch.number ∧ ∃ units', ch'.content = some units' ∧
          appendReclassOnly units units') := by
  induction lines with
  | nil =>
    intro b v out h
    simp only [processLines] at h
    injection h with h2
    rw [← h2]
    exact ⟨rfl, fun _ _ => rfl, fun ch units hch hc =>
      ⟨ch, hch, rfl, rfl, units, hc, appendReclassOnly_refl units⟩⟩
  | cons line rest ih =>
    intro b v out h
    simp only [processLines] at h
    cases h1 : processLine mode c b v line with
    | error e =>
      simp only [h1] at h
      exact Except.noConfusion h
    | ok mid =>
      simp only [h1] at h
      cases h2 : processLines mode c mid.book mid.verseNum rest with
      | error e =>
        simp only [h2] at h
        exact Except.noConfusion h
      | ok out2 =>
        simp only [h2] at h
        injection h with h3
        obtain ⟨hh1, hf1, hc1⟩ := processLine_frame mode c b v line mid h1
        obtain ⟨hh2, hf2, hc2⟩ := ih mid.book mid.verseNum out2 h2
        subst h3
        refine ⟨hh2.trans hh1, ?_, ?_⟩
        · intro j hj
          rw [hf2 j hj, hf1 j hj]
        · intro ch units hch hc
          obtain ⟨ch', hch', hty', hnum', units', hc', haro1⟩ := hc1 ch units hch hc
          obtain ⟨ch'', hch'', hty'', hnum'', units'', hc'', haro2⟩ := hc2 ch' units' hch' hc'
          exact ⟨ch'', hch'', hty''.trans hty', hnum''.trans hnum', units'', hc'',
            appendReclassOnly_trans haro1 haro2⟩

theorem list_getLast?_isSome {α : Type} (l : List α) (h : l ≠ []) : ∃ u, l.getLast? = some u := by
  induction l with
  | nil => exact absurd rfl h
  | cons a tail ih =>
    cases tail with
    | nil => exact ⟨a, rfl⟩
    | cons b rest =>
      obtain ⟨u, hu⟩ := ih (by simp)
      exact ⟨u, by rw [List.getLast?_cons_cons]; exact hu⟩

theorem list_getLastD_of_getLast? {α : Type} (l : List α) (u d : α) (h : l.getLast? = some u) :
    l.getLastD d = u := by
  rw [List.getLastD_eq_getLast? d l, h]
  rfl

theorem setChapter_setChapter (b : objType) (i : Nat) (ch1 ch2 : chapterType) :
    setChapter (setChapter b i ch1) i ch2 = setChapter b i ch2 := by
  unfold setChapter
  simp [List.set_set]

/-! ## The VS mode preserves the no-adjacent-duplicate invariant -/

theorem dispatchMarker_vs_inv (c : Nat) (b : objType) (v : Int)
    (line marker content : String) (ch : chapterType) (units : List unitType)
    (hinv : noAdjDupVerse units = true) :
    (dispatchMarker .VS_AS_VERSE c b v line marker content ch units).book = b ∨
    ∃ units', (dispatchMarker .VS_AS_VERSE c b v line marker content ch units).book =
        setChapter b c { ch with content := some units' } ∧ noAdjDupVerse units' = true := by
  unfold dispatchMarker
  by_cases h1 : marker = "\\c"
  · rw [if_pos h1]
    left
    rfl
  · rw [if_neg h1]
    by_cases h2 : marker = "\\tx"
    · rw [if_pos h2, if_pos rfl]
      by_cases hmerge : 0 < units.length ∧ (units.getLastD dummyUnit).type = "verse" ∧
          v = (units.getLastD dummyUnit).number
      · rw [if_pos hmerge]
        right
        exact ⟨_, rfl,
          noAdjDupVerse_modifyLast_keep (appendText content) (fun u => ⟨rfl, rfl⟩) units hinv⟩
      · rw [if_neg hmerge]
        right
        refine ⟨_, rfl, ?_⟩
        apply noAdjDupVerse_append_single units _ hinv
        intro lastU hl hty _ hnum
        apply hmerge
        have hlen : 0 < units.length := by
          cases units with
          | nil => simp at hl
          | cons x xs => simp
        have hlast : units.getLastD dummyUnit = lastU := list_getLastD_of_getLast? _ _ _ hl
        refine ⟨hlen, by rw [hlast]; exact hty, ?_⟩
        rw [hlast]
        exact hnum.symm
    · rw [if_neg h2]
      by_cases h3 : marker = "\\vs"
      · rw [if_pos h3]
        by_cases h4 : 0 < units.length
        · rw [if_pos h4, if_neg (by decide : ¬((modeType.VS_AS_VERSE) = modeType.TX_AS_VERSE))]
          cases hvs : vsMatch line with
          | none =>
            rw [Option.elim]
            left
            rfl
          | some payload =>
            rw [Option.elim]
            by_cases h5 : payload = "(section title)"
            · rw [if_pos h5]
              right
              exact ⟨_, rfl, noAdjDupVerse_modifyLast_sectionize units hinv⟩
            · rw [if_neg h5]
              left
              rfl
        · rw [if_neg h4]
          left
          rfl
      · rw [if_neg h3]
        left
        rfl

theorem processLine_vs_inv (c : Nat) (b : objType) (v : Int) (line : String) (out : ParseOut)
    (ch : chapterType) (units : List unitType)
    (hch : b.content.get? c = some ch) (hc : ch.content = some units)
    (hinv : noAdjDupVerse units = true)
    (h : processLine .VS_AS_VERSE c b v line = .ok out) :
    ∃ ch' units', out.book.content.get? c = some ch' ∧ ch'.content = some units' ∧
      noAdjDupVerse units' = true := by
  cases hlm : lineMatch line with
  | none =>
    simp only [processLine, hlm] at h
    injection h with h2
    rw [← h2]
    exact ⟨ch, units, hch, hc, hinv⟩
  | some mc =>
    obtain ⟨marker, content⟩ := mc
    simp only [processLine, hlm] at h
    rw [hch] at h
    simp only [] at h
    rw [hc] at h
    simp only [] at h
    injection h with h2
    rcases dispatchMarker_vs_inv c b v line marker content ch units hinv with
      hb | ⟨units', hb, hinv'⟩
    · rw [← h2, hb]
      exact ⟨ch, units, hch, hc, hinv⟩
    · rw [← h2, hb]
      refine ⟨{ ch with content := some units' }, units', ?_, rfl, hinv'⟩
      exact list_get?_set_self _ _ _ (list_get?_lt _ _ _ hch)

theorem processLines_vs_inv (c : Nat) (lines : List String) :
    ∀ (b : objType) (v : Int) (out : ParseOut) (ch : chapterType) (units : List unitType),
      b.content.get? c = some ch → ch.content = some units →
      noAdjDupVerse units = true →
      processLines .VS_AS_VERSE c b v lines = .ok out →
      ∃ ch' units', out.book.content.get? c = some ch' ∧ ch'.content = some units' ∧
        noAdjDupVerse units' = true := by
  induction lines with
  | nil =>
    intro b v out ch units hch hc hinv h
    simp only [processLines] at h
    injection h with h2
    rw [← h2]
    exact ⟨ch, units, hch, hc, hinv⟩
  | cons line rest ih =>
    intro b v out ch units hch hc hinv h
    simp only [processLines] at h
    cases h1 : processLine .VS_AS_VERSE c b v line with
    | error e =>
      simp only [h1] at h
      exact Except.noConfusion h
    | ok mid =>
      simp only [h1] at h
      cases h2 : processLines .VS_AS_VERSE c mid.book mid.verseNum rest with
      | error e =>
        simp only [h2] at h
        exact Except.noConfusion h
      | ok out2 =>
        simp only [h2] at h
        injection h with h3
        obtain ⟨ch', units', hch', hc', hinv'⟩ :=
          processLine_vs_inv c b v line mid ch units hch hc hinv h1
        obtain ⟨ch'', units'', hch'', hc'', hinv''⟩ :=
          ih mid.book mid.verseNum out2 ch' units' hch' hc' hinv' h2
        subst h3
        exact ⟨ch'', units'', hch'', hc'', hinv''⟩

/-! ## Computation of the two TX-line steps in VS mode -/

theorem processLine_tx_push (c : Nat) (b : objType) (v : Int) (line t : String)
    (ch : chapterType) (units : List unitType)
    (hlm : lineMatch line = some ("\\tx", t))
    (hch : b.content.get? c = some ch) (hc : ch.content = some units)
    (hfresh : ∀ u, units.getLast? = some u → u.type = "verse" → u.number ≠ v) :
    processLine .VS_AS_VERSE c b v line =
      .ok ⟨setChapter b c { ch with content := some (units ++ [⟨"verse", v, t⟩]) }, v, []⟩ := by
  simp only [processLine, hlm]
  rw [hch]
  simp only []
  rw [hc]
  simp only []
  congr 1
  unfold dispatchMarker
  rw [if_neg (by decide : ¬(("\\tx" : String) = "\\c"))]
  rw [if_pos rfl, if_pos rfl]
  rw [if_neg ?hcond]
  case hcond =>
    rintro ⟨hlen, hty, hnum⟩
    obtain ⟨lastU, hl⟩ := list_getLast?_isSome units (by
      cases units with
      | nil => simp at hlen
      | cons x xs => simp)
    have hd := list_getLastD_of_getLast? units lastU dummyUnit hl
    rw [hd] at hty hnum
    exact hfresh lastU hl hty hnum.symm

theorem processLine_tx_merge (c : Nat) (b : objType) (v : Int) (line t : String)
    (ch : chapterType) (units : List unitType) (lastU : unitType)
    (hlm : lineMatch line = some ("\\tx", t))
    (hch : b.content.get? c = some ch) (hc : ch.content = some units)
    (hlast : units.getLast? = some lastU) (hty : lastU.type = "verse")
    (hnum : v = lastU.number) :
    processLine .VS_AS_VERSE c b v line =
      .ok ⟨setChapter b c { ch with content := some (modifyLast (appendText t) units) },
        v, []⟩ := by
  simp only [processLine, hlm]
  rw [hch]
  simp only []
  rw [hc]
  simp only []
  congr 1
  unfold dispatchMarker
  rw [if_neg (by decide : ¬(("\\tx" : String) = "\\c"))]
  rw [if_pos rfl, if_pos rfl]
  rw [if_pos ?hcond]
  case hcond =>
    have hlen : 0 < units.length := by
      cases units with
      | nil => simp at hlast
      | cons x xs => simp
    have hd := list_getLastD_of_getLast? units lastU dummyUnit hlast
    rw [hd]
    exact ⟨hlen, hty, hnum⟩

/-! ## Claim theorems -/

/-- Claim C1, counterexample.  The claim states that in VS_AS_VERSE mode a
backslash-vs 5 line followed by a backslash-tx Hello line appends a verse
numbered 5 with text Hello, and a following backslash-vs 7 with
backslash-tx World appends a second verse numbered 7 with text World.  On
the code, starting from a chapter with an empty content array, the first
vs line hits the empty-chapter guard and only logs the section-without-
text warning (the counter stays 1), so Hello becomes verse 1; the vs 7
line sets the counter to 7 plus 1 = 8, so World becomes verse 8.  The
produced unit list is not the claimed one. -/
theorem C1_counterexample :
    updateObj (testBook []) ["\\vs 5", "\\tx Hello", "\\vs 7", "\\tx World"] 1 =
      .ok ⟨{ header := ⟨"Test", ⟨"Ruth", 8, "RUT", 4⟩⟩,
             content := [⟨"padding", 0, none⟩,
               ⟨"chapter", 1, some [⟨"verse", 1, "Hello"⟩, ⟨"verse", 8, "World"⟩]⟩] },
           8, ["Warning, section without text"]⟩ ∧
    ([(⟨"verse", 1, "Hello"⟩ : unitType), ⟨"verse", 8, "World"⟩] ≠
      [⟨"verse", 5, "Hello"⟩, ⟨"verse", 7, "World"⟩]) :=
  ⟨rfl, by decide⟩

/-- Claim C1, amended: in VS_AS_VERSE mode, starting from a chapter with
empty content and verse counter 1, the backslash-vs 5 line is discarded
with a section-without-text warning (the counter is not set), the
following backslash-tx Hello line appends a verse carrying the current
counter 1 with text Hello, the subsequent backslash-vs 7 line sets the
counter to 8 (payload plus one), and backslash-tx World appends a second,
separate verse with number 8 and text World. -/
theorem C1_amended_run :
    updateObj (testBook []) ["\\vs 5", "\\tx Hello", "\\vs 7", "\\tx World"] 1 =
      .ok ⟨{ header := ⟨"Test", ⟨"Ruth", 8, "RUT", 4⟩⟩,
             content := [⟨"padding", 0, none⟩,
               ⟨"chapter", 1, some [⟨"verse", 1, "Hello"⟩, ⟨"verse", 8, "World"⟩]⟩] },
           8, ["Warning, section without text"]⟩ :=
  rfl

/-- Claim C2: the claim (with the spec) states that updateObj returns
normally with the target chapter's content populated even when the target
chapter is still the pre-parse padding placeholder that has no content
array.  On the code this is false: initializeBookObj creates padding
chapter objects without a content array, and updateObj dereferences the
length of that array for every line that matches the line pattern, so the
first well-formed line raises a TypeError.  This theorem evaluates the
code at the failing input. -/
theorem C2_padding_chapter_crash :
    (initializeBookObj "Genesis" "Proj").content.get? 1 =
      some ⟨"padding", 1, none⟩ ∧
    updateObj (initializeBookObj "Genesis" "Proj") ["\\tx In the beginning"] 1 =
      .error "TypeError: cannot read length of undefined" :=
  ⟨by decide, rfl⟩

/-- Claim C6: the claim states that backslash-c, backslash-ref and
backslash-t are each explicitly recognized ignore markers that do not fall
to the default unexpected-marker branch.  On the code only backslash-c has
a case in the switch; backslash-ref and backslash-t fall to the default
branch and log the skipping-unexpected-marker warning (the source's own
markerType declaration lists them as recognized ignored markers).  This
theorem evaluates the code: backslash-c is silently ignored, while the
other two produce the unexpected-marker warning; none of the three mutates
the chapter or the counter. -/
theorem C6_ref_t_fall_to_default :
    processLine .TX_AS_VERSE 1 (testBook []) 1 "\\c 1" =
      .ok ⟨testBook [], 1, []⟩ ∧
    processLine .TX_AS_VERSE 1 (testBook []) 1 "\\ref MAT 1:1" =
      .ok ⟨testBook [], 1, ["Skipping unexpected marker:\\ref"]⟩ ∧
    processLine .TX_AS_VERSE 1 (testBook []) 1 "\\t heading" =
      .ok ⟨testBook [], 1, ["Skipping unexpected marker:\\t"]⟩ :=
  ⟨rfl, rfl, rfl⟩

/-- Spec-side statement of the mode pattern: the line contains, at some
position, a backslash-vs marker followed by one or more whitespace
characters and then a digit. -/
def specVsNum (line : String) : Prop :=
  ∃ a w d b, line.data = a ++ ['\\', 'v', 's'] ++ w ++ d :: b ∧
    w ≠ [] ∧ (∀ x ∈ w, isJsSpace x = true) ∧ d.isDigit = true

theorem isJsSpace_not_digit (c : Char) (h : isJsSpace c = true) : c.isDigit = false := by
  simp only [isJsSpace, Bool.or_eq_true, decide_eq_true_eq] at h
  rcases h with (((((h | h) | h) | h) | h) | h) | h <;> subst h <;> decide

theorem skipWsDigit_iff (l : List Char) :
    skipWsDigit l = true ↔
      ∃ w d b, l = w ++ d :: b ∧ (∀ x ∈ w, isJsSpace x = true) ∧ d.isDigit = true := by
  induction l with
  | nil =>
    simp only [skipWsDigit]
    constructor
    · intro h
      exact Bool.noConfusion h
    · rintro ⟨w, d, b, h, -, -⟩
      exact absurd h (by simp)
  | cons c rest ih =>
    by_cases hc : isJsSpace c = true
    · rw [skipWsDigit, if_pos hc, ih]
      constructor
      · rintro ⟨w, d, b, heq, hw, hd⟩
        refine ⟨c :: w, d, b, by rw [heq]; rfl, ?_, hd⟩
        intro x hx
        rcases List.mem_cons.mp hx with rfl | hx'
        · exact hc
        · exact hw x hx'
      · rintro ⟨w, d, b, heq, hw, hd⟩
        cases w with
        | nil =>
          injection heq with h1 h2
          subst h1
          exact absurd hd (by rw [isJsSpace_not_digit c hc]; exact Bool.noConfusion)
        | cons x w' =>
          injection heq with h1 h2
          exact ⟨w', d, b, h2, fun y hy => hw y (List.mem_cons_of_mem x hy), hd⟩
    · rw [skipWsDigit, if_neg hc]
      constructor
      · intro hd
        exact ⟨[], c, rest, rfl, by intro x hx; simp at hx, hd⟩
      · rintro ⟨w, d, b, heq, hw, hd⟩
        cases w with
        | nil =>
          injection heq with h1 h2
          subst h1
          exact hd
        | cons x w' =>
          injection heq with h1 h2
          subst h1
          exact absurd (hw c (by simp)) hc

theorem wsPlusDigit_iff (l : List Char) :
    wsPlusDigit l = true ↔
      ∃ w d b, l = w ++ d :: b ∧ w ≠ [] ∧ (∀ x ∈ w, isJsSpace x = true) ∧
        d.isDigit = true := by
  cases l with
  | nil =>
    simp only [wsPlusDigit]
    constructor
    · intro h
      exact Bool.noConfusion h
    · rintro ⟨w, d, b, h, -, -, -⟩
      exact absurd h (by simp)
  | cons c rest =>
    rw [wsPlusDigit, Bool.and_eq_true, skipWsDigit_iff]
    constructor
    · rintro ⟨hc, w, d, b, heq, hw, hd⟩
      refine ⟨c :: w, d, b, by rw [heq]; rfl, by simp, ?_, hd⟩
      intro x hx
      rcases List.mem_cons.mp hx with rfl | hx'
      · exact hc
      · exact hw x hx'
    · rintro ⟨w, d, b, heq, hne, hw, hd⟩
      cases w with
      | nil => exact absurd rfl hne
      | cons x w' =>
        injection heq with h1 h2
        subst h1
        exact ⟨hw c (by simp), w', d, b, h2,
          fun y hy => hw y (List.mem_cons_of_mem c hy), hd⟩

theorem matchVsNumAt_iff (l : List Char) :
    matchVsNumAt l = true ↔
      ∃ rest, l = '\\' :: 'v' :: 's' :: rest ∧ wsPlusDigit rest = true := by
  cases l with
  | nil =>
    simp only [matchVsNumAt]
    exact ⟨fun h => Bool.noConfusion h, by rintro ⟨rest, h, -⟩; exact List.noConfusion h⟩
  | cons a l1 =>
    cases l1 with
    | nil =>
      simp only [matchVsNumAt]
      constructor
      · intro h
        exact Bool.noConfusion h
      · rintro ⟨rest, h, -⟩
        injection h with h1 h2
        exact List.noConfusion h2
    | cons b l2 =>
      cases l2 with
      | nil =>
        simp only [matchVsNumAt]
        constructor
        · intro h
          exact Bool.noConfusion h
        · rintro ⟨rest, h, -⟩
          injection h with h1 h2
          injection h2 with h3 h4
          exact List.noConfusion h4
      | cons c rest =>
        simp only [matchVsNumAt]
        by_cases habc : a = '\\' ∧ b = 'v' ∧ c = 's'
        · rw [if_pos habc]
          obtain ⟨ha, hb, hc⟩ := habc
          subst ha; subst hb; subst hc
          constructor
          · intro h
            exact ⟨rest, rfl, h⟩
          · rintro ⟨rest', h, hws⟩
            injection h with h1 h2
            injection h2 with h3 h4
            injection h4 with h5 h6
            subst h6
            exact hws
        · rw [if_neg habc]
          constructor
          · intro h
            exact Bool.noConfusion h
          · rintro ⟨rest', h, -⟩
            injection h with h1 h2
            injection h2 with h3 h4
            injection h4 with h5 h6
            exact absurd ⟨h1, h3, h5⟩ habc

theorem containsVsNumAux_iff (l : List Char) :
    containsVsNumAux l = true ↔ ∃ a r, l = a ++ r ∧ matchVsNumAt r = true := by
  induction l with
  | nil =>
    simp only [containsVsNumAux]
    constructor
    · intro h
      exact Bool.noConfusion h
    · rintro ⟨a, r, heq, hm⟩
      have ha : a = [] := by
        cases a with
        | nil => rfl
        | cons x a' => exact List.noConfusion heq
      subst ha
      have hr : r = [] := by simpa using heq.symm
      subst hr
      exact Bool.noConfusion hm
  | cons c rest ih =>
    rw [containsVsNumAux, Bool.or_eq_true, ih]
    constructor
    · rintro (h | ⟨a, r, heq, hm⟩)
      · exact ⟨[], c :: rest, rfl, h⟩
      · exact ⟨c :: a, r, by rw [heq]; rfl, hm⟩
    · rintro ⟨a, r, heq, hm⟩
      cases a with
      | nil =>
        left
        have : r = c :: rest := by simpa using heq.symm
        rw [← this]
        exact hm
      | cons x a' =>
        right
        injection heq with h1 h2
        exact ⟨a', r, h2, hm⟩

theorem containsVsNum_iff (line : String) : containsVsNum line = true ↔ specVsNum line := by
  unfold containsVsNum specVsNum
  rw [containsVsNumAux_iff]
  constructor
  · rintro ⟨a, r, heq, hm⟩
    obtain ⟨rest, hr, hws⟩ := (matchVsNumAt_iff r).mp hm
    obtain ⟨w, d, b, hsplit, hne, hw, hd⟩ := (wsPlusDigit_iff rest).mp hws
    refine ⟨a, w, d, b, ?_, hne, hw, hd⟩
    rw [heq, hr, hsplit]
    simp
  · rintro ⟨a, w, d, b, heq, hne, hw, hd⟩
    refine ⟨a, ['\\', 'v', 's'] ++ w ++ d :: b, ?_, ?_⟩
    · rw [heq]
      simp
    · rw [matchVsNumAt_iff]
      refine ⟨w ++ d :: b, by simp, ?_⟩
      exact (wsPlusDigit_iff _).mpr ⟨w, d, b, rfl, hne, hw, hd⟩

/-- Claim C4: for every file (ordered line sequence) the mode detector
returns VS_AS_VERSE exactly when some line contains a backslash-vs marker
followed by whitespace and one or more digits, TX_AS_VERSE otherwise, and
the first matching line alone decides the result (the scan of the source
short-circuits there; the detector is a pure function). -/
theorem C4_mode_detector (lines : List String) :
    (detectMode lines = .VS_AS_VERSE ↔ ∃ l ∈ lines, specVsNum l) ∧
    (detectMode lines = .TX_AS_VERSE ↔ ∀ l ∈ lines, ¬ specVsNum l) ∧
    (∀ line rest, lines = line :: rest → specVsNum line →
      detectMode lines = .VS_AS_VERSE) := by
  induction lines with
  | nil =>
    refine ⟨⟨fun h => absurd h (by rw [detectMode]; exact fun hh => modeType.noConfusion hh),
      ?_⟩, ⟨fun _ _ h => (by simp at h), fun _ => rfl⟩, fun _ _ h => List.noConfusion h⟩
    rintro ⟨l, hl, -⟩
    simp at hl
  | cons line rest ih =>
    obtain ⟨ih1, ih2, -⟩ := ih
    by_cases hc : containsVsNum line = true
    · have hd : detectMode (line :: rest) = .VS_AS_VERSE := by
        rw [detectMode, if_pos hc]
      have hspec := (containsVsNum_iff line).mp hc
      refine ⟨⟨fun _ => ⟨line, by simp, hspec⟩, fun _ => hd⟩,
        ⟨fun h => ?_, fun h => absurd hspec (h line (by simp))⟩,
        fun _ _ _ _ => hd⟩
      rw [hd] at h
      exact modeType.noConfusion h
    · have hd : detectMode (line :: rest) = detectMode rest := by
        rw [detectMode, if_neg hc]
      have hnospec : ¬ specVsNum line := fun hs => hc ((containsVsNum_iff line).mpr hs)
      refine ⟨?_, ?_, ?_⟩
      · rw [hd, ih1]
        constructor
        · rintro ⟨l, hl, hs⟩
          exact ⟨l, by simp [hl], hs⟩
        · rintro ⟨l, hl, hs⟩
          rcases List.mem_cons.mp hl with rfl | hl'
          · exact absurd hs hnospec
          · exact ⟨l, hl', hs⟩
      · rw [hd, ih2]
        constructor
        · intro h l hl
          rcases List.mem_cons.mp hl with rfl | hl'
          · exact hnospec
          · exact h l hl'
        · intro h l hl
          exact h l (by simp [hl])
      · intro line' rest' heq hs
        injection heq with h1 h2
        subst h1
        exact absurd hs hnospec

/-- Concrete instances of the mode-detector characterization. -/
theorem C4_witness :
    detectMode ["\\tx a", "x \\vs 12 y"] = .VS_AS_VERSE ∧
    detectMode ["\\tx a", "\\vs five"] = .TX_AS_VERSE := by
  constructor
  · exact (C4_mode_detector ["\\tx a", "x \\vs 12 y"]).1.mpr
      ⟨"x \\vs 12 y", by simp, "x ".data, [' '], '1', "2 y".data,
        by decide, by decide, by decide, by decide⟩
  · refine (C4_mode_detector ["\\tx a", "\\vs five"]).2.1.mpr ?_
    intro l hl hs
    have hc := (containsVsNum_iff l).mpr hs
    rcases List.mem_cons.mp hl with rfl | hl'
    · exact absurd hc (by decide)
    · rcases List.mem_cons.mp hl' with rfl | hl''
      · exact absurd hc (by decide)
      · simp at hl''

/-- Claim C5: in TX_AS_VERSE mode a backslash-vs line with at least one
unit in the target chapter reclassifies the chapter's last unit to type
section with number 1 and decrements the running verse counter (so later
numbering continues as if that unit never consumed a verse slot); with no
unit yet it only logs the section-without-text warning, mutating
nothing. -/
theorem C5_tx_vs_section (c : Nat) (b : objType) (v : Int) (line cont : String)
    (ch : chapterType) (units : List unitType)
    (hlm : lineMatch line = some ("\\vs", cont))
    (hch : b.content.get? c = some ch) (hc : ch.content = some units) :
    (units ≠ [] →
      processLine .TX_AS_VERSE c b v line =
        .ok ⟨setChapter b c { ch with content := some (modifyLast sectionize units) },
          v - 1, []⟩) ∧
    (units = [] →
      processLine .TX_AS_VERSE c b v line =
        .ok ⟨b, v, ["Warning, section without text"]⟩) := by
  constructor
  · intro hne
    simp only [processLine, hlm]
    rw [hch]
    simp only []
    rw [hc]
    simp only []
    congr 1
    unfold dispatchMarker
    rw [if_neg (by decide : ¬(("\\vs" : String) = "\\c"))]
    rw [if_neg (by decide : ¬(("\\vs" : String) = "\\tx"))]
    rw [if_pos rfl]
    rw [if_pos (by
      cases units with
      | nil => exact absurd rfl hne
      | cons x xs => simp : 0 < units.length)]
    rw [if_pos rfl]
  · intro hempty
    subst hempty
    simp only [processLine, hlm]
    rw [hch]
    simp only []
    rw [hc]
    simp only []
    rfl

/-- Concrete instance of the TX-mode section reclassification and of the
empty-chapter warning. -/
theorem C5_witness :
    processLine .TX_AS_VERSE 1 (testBook [⟨"verse", 1, "In the beginning"⟩]) 2 "\\vs x" =
      .ok ⟨setChapter (testBook [⟨"verse", 1, "In the beginning"⟩]) 1
        ⟨"chapter", 1, some (modifyLast sectionize [⟨"verse", 1, "In the beginning"⟩])⟩,
        2 - 1, []⟩ ∧
    processLine .TX_AS_VERSE 1 (testBook []) 5 "\\vs x" =
      .ok ⟨testBook [], 5, ["Warning, section without text"]⟩ := by
  constructor
  · exact (C5_tx_vs_section 1 (testBook [⟨"verse", 1, "In the beginning"⟩]) 2 "\\vs x" "x"
      ⟨"chapter", 1, some [⟨"verse", 1, "In the beginning"⟩]⟩ [⟨"verse", 1, "In the beginning"⟩]
      (by decide) (by decide) rfl).1 (by decide)
  · exact (C5_tx_vs_section 1 (testBook []) 5 "\\vs x" "x"
      ⟨"chapter", 1, some []⟩ [] (by decide) (by decide) rfl).2 rfl

/-- Claim C7: in both modes, a backslash-vs line whose vsPattern payload is
the section-title literal, processed when the target chapter has at least
one unit, reclassifies the chapter's last unit to type section with number
1 (the verse counter may differ between the modes: TX_AS_VERSE also
decrements it). -/
theorem C7_section_title_both_modes (mode : modeType) (c : Nat) (b : objType) (v : Int)
    (line cont : String) (ch : chapterType) (units : List unitType)
    (hlm : lineMatch line = some ("\\vs", cont))
    (hvs : vsMatch line = some "(section title)")
    (hch : b.content.get? c = some ch) (hc : ch.content = some units)
    (hne : units ≠ []) :
    ∃ v' : Int, processLine mode c b v line =
      .ok ⟨setChapter b c { ch with content := some (modifyLast sectionize units) },
        v', []⟩ := by
  have hlen : 0 < units.length := by
    cases units with
    | nil => exact absurd rfl hne
    | cons x xs => simp
  cases mode with
  | TX_AS_VERSE =>
    refine ⟨v - 1, ?_⟩
    simp only [processLine, hlm]
    rw [hch]
    simp only []
    rw [hc]
    simp only []
    congr 1
    unfold dispatchMarker
    rw [if_neg (by decide : ¬(("\\vs" : String) = "\\c"))]
    rw [if_neg (by decide : ¬(("\\vs" : String) = "\\tx"))]
    rw [if_pos rfl, if_pos hlen, if_pos rfl]
  | VS_AS_VERSE =>
    refine ⟨v, ?_⟩
    simp only [processLine, hlm]
    rw [hch]
    simp only []
    rw [hc]
    simp only []
    congr 1
    unfold dispatchMarker
    rw [if_neg (by decide : ¬(("\\vs" : String) = "\\c"))]
    rw [if_neg (by decide : ¬(("\\vs" : String) = "\\tx"))]
    rw [if_pos rfl, if_pos hlen]
    rw [if_neg (by decide : ¬(modeType.VS_AS_VERSE = modeType.TX_AS_VERSE))]
    rw [hvs, Option.elim]
    rw [if_pos rfl]

/-- Concrete instance of the section-title reclassification in VS mode. -/
theorem C7_witness :
    ∃ v' : Int, processLine .VS_AS_VERSE 1 (testBook [⟨"verse", 1, "t"⟩]) 2
        "\\vs (section title)" =
      .ok ⟨setChapter (testBook [⟨"verse", 1, "t"⟩]) 1
        ⟨"chapter", 1, some (modifyLast sectionize [⟨"verse", 1, "t"⟩])⟩, v', []⟩ :=
  C7_section_title_both_modes .VS_AS_VERSE 1 (testBook [⟨"verse", 1, "t"⟩]) 2
    "\\vs (section title)" "(section title)" ⟨"chapter", 1, some [⟨"verse", 1, "t"⟩]⟩
    [⟨"verse", 1, "t"⟩] (by decide) (by decide) (by decide) rfl (by decide)

/-- Claim C8: a line that does not match the marker-space-content pattern
is skipped with a warning: processing it never yields an error, changes
neither the book nor the verse counter, and the remaining lines process
exactly as they would without the malformed line (only the warning is
added in front of the remaining warnings). -/
theorem C8_malformed_skipped (mode : modeType) (c : Nat) (b : objType) (v : Int)
    (line : String) (h : lineMatch line = none) :
    processLine mode c b v line =
      .ok ⟨b, v, ["Unable to parse line: \"" ++ line ++ "\" - skipping..."]⟩ ∧
    ∀ rest : List String, processLines mode c b v (line :: rest) =
      (processLines mode c b v rest).map
        (fun out => ⟨out.book, out.verseNum,
          ("Unable to parse line: \"" ++ line ++ "\" - skipping...") :: out.warnings⟩) := by
  have h1 : processLine mode c b v line =
      .ok ⟨b, v, ["Unable to parse line: \"" ++ line ++ "\" - skipping..."]⟩ := by
    simp only [processLine, h]
  refine ⟨h1, ?_⟩
  intro rest
  simp only [processLines, h1]
  cases h2 : processLines mode c b v rest with
  | error e => rfl
  | ok out2 => rfl

/-- Concrete instance: a malformed line is skipped with the warning and
does not disturb the processing of the rest of the file. -/
theorem C8_witness :
    lineMatch "just text" = none ∧
    processLine .TX_AS_VERSE 1 (testBook []) 1 "just text" =
      .ok ⟨testBook [], 1, ["Unable to parse line: \"just text\" - skipping..."]⟩ :=
  ⟨by decide,
    (C8_malformed_skipped .TX_AS_VERSE 1 (testBook []) 1 "just text" (by decide)).1⟩

/-- Claim C3: in VS_AS_VERSE mode, two consecutive backslash-tx lines
under the same verse counter (with no unit already carrying that number at
the chapter's end) produce exactly one verse unit whose text is the
concatenation of the two lines' content in order; and for every line
sequence, processing preserves the invariant that the chapter content
holds no two adjacent verse units with equal number. -/
theorem C3_merge_and_no_adjacent_duplicates :
    (∀ (c : Nat) (b : objType) (v : Int) (l1 l2 t1 t2 : String) (ch : chapterType)
        (units : List unitType),
      lineMatch l1 = some ("\\tx", t1) → lineMatch l2 = some ("\\tx", t2) →
      b.content.get? c = some ch → ch.content = some units →
      (∀ u, units.getLast? = some u → u.type = "verse" → u.number ≠ v) →
      processLines .VS_AS_VERSE c b v [l1, l2] =
        .ok ⟨setChapter b c { ch with content := some (units ++ [⟨"verse", v, t1 ++ t2⟩]) },
          v, []⟩) ∧
    (∀ (lines : List String) (c : Nat) (b : objType) (v : Int) (out : ParseOut)
        (ch : chapterType) (units : List unitType),
      b.content.get? c = some ch → ch.content = some units →
      noAdjDupVerse units = true →
      processLines .VS_AS_VERSE c b v lines = .ok out →
      ∀ ch' units', out.book.content.get? c = some ch' → ch'.content = some units' →
        noAdjDupVerse units' = true) := by
  constructor
  · intro c b v l1 l2 t1 t2 ch units h1 h2 hch hc hfresh
    have s1 := processLine_tx_push c b v l1 t1 ch units h1 hch hc hfresh
    have hch' : (setChapter b c
          { ch with content := some (units ++ [⟨"verse", v, t1⟩]) }).content.get? c =
        some { ch with content := some (units ++ [⟨"verse", v, t1⟩]) } :=
      list_get?_set_self _ _ _ (list_get?_lt _ _ _ hch)
    have s2 := processLine_tx_merge c
      (setChapter b c { ch with content := some (units ++ [⟨"verse", v, t1⟩]) }) v l2 t2
      { ch with content := some (units ++ [⟨"verse", v, t1⟩]) }
      (units ++ [⟨"verse", v, t1⟩]) ⟨"verse", v, t1⟩ h2 hch' rfl
      (List.getLast?_concat units) rfl rfl
    simp only [processLines, s1, s2]
    rw [modifyLast_concat, setChapter_setChapter]
    rfl
  · intro lines c b v out ch units hch hc hinv h ch' units' hch' hc'
    obtain ⟨ch'', units'', hch'', hc'', hinv''⟩ :=
      processLines_vs_inv c lines b v out ch units hch hc hinv h
    rw [hch'] at hch''
    injection hch'' with he
    subst he
    rw [hc'] at hc''
    injection hc'' with he2
    subst he2
    exact hinv''

/-- Concrete instance of the merge and of the invariant: two TX lines
under counter 1 yield the single verse with the concatenated text. -/
theorem C3_witness :
    processLines .VS_AS_VERSE 1 (testBook []) 1 ["\\tx a", "\\tx b"] =
      .ok ⟨setChapter (testBook []) 1 ⟨"chapter", 1, some [⟨"verse", 1, "ab"⟩]⟩, 1, []⟩ ∧
    noAdjDupVerse [⟨"verse", 1, "ab"⟩] = true := by
  constructor
  · exact C3_merge_and_no_adjacent_duplicates.1 1 (testBook []) 1 "\\tx a" "\\tx b" "a" "b"
      ⟨"chapter", 1, some []⟩ [] (by decide) (by decide) (by decide) rfl
      (by intro u hu; simp at hu)
  · exact C3_merge_and_no_adjacent_duplicates.2 ["\\tx a", "\\tx b"] 1 (testBook []) 1
      ⟨setChapter (testBook []) 1 ⟨"chapter", 1, some [⟨"verse", 1, "ab"⟩]⟩, 1, []⟩
      ⟨"chapter", 1, some []⟩ [] (by decide) rfl rfl rfl
      ⟨"chapter", 1, some [⟨"verse", 1, "ab"⟩]⟩ [⟨"verse", 1, "ab"⟩] (by decide) rfl

/-- Claim C9, counterexample.  The claim states that every filename
matching the pattern yields the registry-resolved book name together with
the chapter number parsed from the digits.  On the code, when the book
token does not resolve (the registry returns the placeholder), the
chapter number stays 0 instead of the parsed digits (and no warning is
logged): the filename Zzz underscore Ch3 dot txt matches the pattern with
digits 3, yet getBookAndChapter returns chapter 0. -/
theorem C9_counterexample :
    fileMatch "Zzz_Ch3.txt" = some ("Zzz", "3") ∧
    getBookAndChapter "Zzz_Ch3.txt" = (⟨"Placeholder", 0⟩, []) ∧
    (0 : Nat) ≠ digitsToNat "3".data :=
  ⟨by decide, by decide, by decide⟩

/-- Claim C9 amended: a filename matching the pattern whose book token the
registry resolves to a non-placeholder book yields the resolved name and
the chapter number parsed from the digits; a matching filename with an
unresolvable token keeps the placeholder with chapter 0 and no warning;
a non-matching filename yields the placeholder with chapter 0 and logs
the warning. -/
theorem C9_filename_contract :
    (∀ filename tok digits, fileMatch filename = some (tok, digits) →
      ((getBookByName tok).name ≠ "Placeholder" →
        getBookAndChapter filename =
          (⟨(getBookByName tok).name, digitsToNat digits.data⟩, [])) ∧
      ((getBookByName tok).name = "Placeholder" →
        getBookAndChapter filename = (⟨"Placeholder", 0⟩, []))) ∧
    (∀ filename, fileMatch filename = none →
      getBookAndChapter filename =
        (⟨"Placeholder", 0⟩, ["Unable to determine info from: " ++ filename])) := by
  constructor
  · intro filename tok digits h
    constructor
    · intro hres
      simp only [getBookAndChapter, h]
      rw [if_pos hres]
    · intro hres
      simp only [getBookAndChapter, h]
      rw [if_neg (not_not_intro hres)]
  · intro filename h
    simp only [getBookAndChapter, h]

/-- Concrete instances of the filename contract: a resolvable matching
name, and a non-matching name. -/
theorem C9_witness :
    getBookAndChapter "Ruth_Ch3_final.txt" = (⟨"Ruth", 3⟩, []) ∧
    getBookAndChapter "notes.doc" =
      (⟨"Placeholder", 0⟩, ["Unable to determine info from: " ++ "notes.doc"]) := by
  constructor
  · exact (C9_filename_contract.1 "Ruth_Ch3_final.txt" "Ruth" "3" (by decide)).1 (by decide)
  · exact C9_filename_contract.2 "notes.doc" (by decide)

/-- Claim C10, counterexample.  The claim states that the target chapter's
content is mutated only by appending units or appending text to its last
unit.  On the code a backslash-vs line also overwrites the last unit's
type and number (section reclassification): processing the single line
backslash-vs y over a chapter holding one verse numbered 3 turns that
verse into a section numbered 1, which the append-only discipline
forbids. -/
theorem C10_counterexample :
    updateObj (testBook [⟨"verse", 3, "x"⟩]) ["\\vs y"] 1 =
      .ok ⟨{ header := ⟨"Test", ⟨"Ruth", 8, "RUT", 4⟩⟩,
             content := [⟨"padding", 0, none⟩,
               ⟨"chapter", 1, some [⟨"section", 1, "x"⟩]⟩] }, 0, []⟩ ∧
    ¬ appendOnly [⟨"verse", 3, "x"⟩] [⟨"section", 1, "x"⟩] := by
  refine ⟨rfl, ?_⟩
  rintro ⟨-, -, hlast⟩
  obtain ⟨u', hget, hty, -, -⟩ := hlast ⟨"verse", 3, "x"⟩ rfl
  simp only [List.length_cons, List.length_nil, Nat.add_sub_cancel, List.get?] at hget
  injection hget with he
  rw [← he] at hty
  exact absurd hty (by decide)

/-- Claim C10 amended: a run of updateObj that returns normally leaves the
book's header and every chapter other than the target index unchanged;
the target chapter keeps its own type and number, and its content is
mutated only by appending units, appending text to the last unit, or
overwriting the last unit's type and number with exactly "section" and 1
(the section reclassification) — the last pre-existing unit either keeps
its type and number or ends as section/1, and its text only ever grows at
its end. -/
theorem C10_frame (b : objType) (lines : List String) (c : Nat) (out : ParseOut)
    (h : updateObj b lines c = .ok out) :
    out.book.header = b.header ∧
    (∀ j, j ≠ c → out.book.content.get? j = b.content.get? j) ∧
    (∀ ch units, b.content.get? c = some ch → ch.content = some units →
      ∃ ch', out.book.content.get? c = some ch' ∧ ch'.type = ch.type ∧
        ch'.number = ch.number ∧ ∃ units', ch'.content = some units' ∧
          appendReclassOnly units units') :=
  processLines_frame (detectMode lines) c lines b 1 out h

/-- Concrete instance of the frame property: one TX line leaves the header
(and chapter 0) unchanged. -/
theorem C10_witness :
    updateObj (testBook []) ["\\tx a"] 1 =
      .ok ⟨setChapter (testBook []) 1 ⟨"chapter", 1, some [⟨"verse", 1, "a"⟩]⟩, 2, []⟩ ∧
    (setChapter (testBook []) 1
      ⟨"chapter", 1, some [⟨"verse", 1, "a"⟩]⟩).header = (testBook []).header := by
  refine ⟨rfl, ?_⟩
  exact (C10_frame (testBook []) ["\\tx a"] 1
    ⟨setChapter (testBook []) 1 ⟨"chapter", 1, some [⟨"verse", 1, "a"⟩]⟩, 2, []⟩ rfl).1

example : lineMatch "\\tx Hello" = some ("\\tx", "Hello") := by decide
example : lineMatch "\\tx" = none := by decide
example : lineMatch "no marker" = none := by decide
example : containsVsNum "\\vs 5" = true := by decide
example : containsVsNum "\\vs five" = false := by decide
example : vsMatch "\\vs (section title)" = some "(section title)" := by decide
example : vsMatch "\\vs 12a" = some "12" := by decide
example : vsMatch "\\vs *3" = some "3" := by decide
example : fileMatch "Gen_Ch12_notes.txt" = some ("Gen", "12") := by decide
example : fileMatch "Ruth_3.txt" = some ("Ruth", "3") := by decide
example : fileMatch "notes.doc" = none := by decide
